import Mathlib

set_option maxRecDepth 100000
set_option linter.dupNamespace false
set_option linter.unnecessarySeqFocus false

/-!
# DeepLX: request shaping and response adaptation of the `/translate` proxy

A shallow embedding of `main.go`.  The `int64` values of the program (an
epoch-millisecond time, a character count, the request id) are integers: they
stay far below 2^63, so no operation on them wraps around.  Strings handed to
the encoder are sequences of Unicode characters, and the bytes sent upstream
are a `List Char`.  The wall clock, the clock of the limiter, the language
detector, the random draw of the seed, the result of binding the request body
and the answer of the transport are explicit parameters.  The limiter counts
its tokens exactly, in nanoseconds of refill.  The call
`http.NewRequest("POST", url, reader)` has a constant method and URL and does
not fail, so its error branch is left out.
-/

namespace DeepLX

/-! ## Data model -/

/-- `Lang` of `main.go`. -/
structure Lang where
  SourceLangUserSelected : String
  TargetLang : String

/-- `CommonJobParams` of `main.go`. -/
structure CommonJobParams where
  WasSpoken : Bool
  TranscribeAS : String

/-- `Text` of `main.go`. -/
structure Text where
  Text : String
  RequestAlternatives : Int

/-- `Params` of `main.go`. -/
structure Params where
  Texts : List Text
  Splitting : String
  Lang : Lang
  Timestamp : Int
  CommonJobParams : CommonJobParams

/-- `PostData` of `main.go`: the envelope sent upstream. -/
structure PostData where
  Jsonrpc : String
  Method : String
  ID : Int
  Params : Params

/-- `ResData` of `main.go`: the body of an inbound `/translate` request. -/
structure ResData where
  TransText : String
  SourceLang : String
  TargetLang : String

/-- `initData`: the envelope with its constant fields, no text, id 0 and
timestamp 0 (the zero values of Go). -/
def initData (sourceLang : String) (targetLang : String) : PostData :=
  { Jsonrpc := "2.0"
    Method := "LMT_handle_texts"
    ID := 0
    Params :=
      { Texts := []
        Splitting := "newlines"
        Lang := { SourceLangUserSelected := sourceLang, TargetLang := targetLang }
        Timestamp := 0
        CommonJobParams := { WasSpoken := false, TranscribeAS := "" } } }

/-- `getICount`: `strings.Count(translateText, "i")`. -/
def getICount (translateText : String) : Int :=
  (translateText.toList.count 'i' : Nat)

/-- `getRandomNumber`, with the draw `rand.Int63n(99999)` as the parameter `r`. -/
def getRandomNumber (r : Int) : Int :=
  let num := r + 8300000
  num * 1000

/-- `getTimeStamp`, with `time.Now().UnixMilli()` as the parameter `now`.
Go's `%` truncates towards zero, which is `Int.tmod`. -/
def getTimeStamp (now : Int) (iCount : Int) : Int :=
  let ts := now
  if iCount ≠ 0 then
    let iCount := iCount + 1
    ts - ts.tmod iCount + iCount
  else
    ts

/-! ## `encoding/json`: the encoder used by `json.Marshal` -/

/-- The table `hex` of `encoding/json`. -/
def hexDigit (n : Nat) : Char :=
  "0123456789abcdef".toList.getD n '0'

/-- How `json.Marshal` of Go 1.20 writes one character of a string (HTML
escaping on, as `json.Marshal` has it): the quote and the backslash get a backslash, newline,
carriage return and tab their short form, the other control characters and
`<`, `>`, `&` the form `\u00XX`, the line separators U+2028 and U+2029 the form
`\u202X`, and every other character is copied. -/
def escapeChar (c : Char) : List Char :=
  if c = '"' ∨ c = '\\' then ['\\', c]
  else if c = '\n' then ['\\', 'n']
  else if c = '\r' then ['\\', 'r']
  else if c = '\t' then ['\\', 't']
  else if c.toNat < 32 ∨ c = '<' ∨ c = '>' ∨ c = '&' then
    ['\\', 'u', '0', '0', hexDigit (c.toNat / 16), hexDigit (c.toNat % 16)]
  else if c.toNat = 8232 ∨ c.toNat = 8233 then
    ['\\', 'u', '2', '0', '2', hexDigit (c.toNat % 16)]
  else [c]

/-- A JSON string literal as `json.Marshal` writes it. -/
def encodeString (s : String) : List Char :=
  '"' :: (s.toList.flatMap escapeChar ++ ['"'])

/-- Decimal digits of a natural number, most significant first, in front of
`acc`; `fuel` bounds the number of digits. -/
def natDigits : Nat → Nat → List Char → List Char
  | 0, _, acc => acc
  | fuel + 1, n, acc =>
    let acc := Nat.digitChar (n % 10) :: acc
    if n / 10 = 0 then acc else natDigits fuel (n / 10) acc

/-- An `int64` as `json.Marshal` writes it (`strconv.AppendInt`, base 10). -/
def encodeInt (n : Int) : List Char :=
  if n < 0 then '-' :: natDigits (n.natAbs + 1) n.natAbs []
  else natDigits (n.natAbs + 1) n.natAbs []

/-- A `bool` as `json.Marshal` writes it. -/
def encodeBool (b : Bool) : List Char :=
  if b then "true".toList else "false".toList

/-- Elements of a JSON array, comma separated. -/
def joinComma : List (List Char) → List Char
  | [] => []
  | [x] => x
  | x :: y :: rest => x ++ (',' :: joinComma (y :: rest))

/-- `json.Marshal` of a `Text`, fields in declaration order under their tags. -/
def marshalText (t : Text) : List Char :=
  "\x7b\"text\":".toList ++ (encodeString t.Text ++
  (",\"requestAlternatives\":".toList ++ (encodeInt t.RequestAlternatives ++ "\x7d".toList)))

/-- `json.Marshal` of a `Lang`. -/
def marshalLang (l : Lang) : List Char :=
  "\x7b\"source_lang_user_selected\":".toList ++ (encodeString l.SourceLangUserSelected ++
  (",\"target_lang\":".toList ++ (encodeString l.TargetLang ++ "\x7d".toList)))

/-- `json.Marshal` of a `CommonJobParams`. -/
def marshalCommonJobParams (p : CommonJobParams) : List Char :=
  "\x7b\"wasSpoken\":".toList ++ (encodeBool p.WasSpoken ++
  (",\"transcribe_as\":".toList ++ (encodeString p.TranscribeAS ++ "\x7d".toList)))

/-- `json.Marshal` of a `[]Text`: a nil slice is `null`. -/
def marshalTexts (ts : List Text) : List Char :=
  if ts.isEmpty then "null".toList
  else '[' :: (joinComma (ts.map marshalText) ++ [']'])

/-- `json.Marshal` of a `Params`. -/
def marshalParams (p : Params) : List Char :=
  "\x7b\"texts\":".toList ++ (marshalTexts p.Texts ++
  (",\"splitting\":".toList ++ (encodeString p.Splitting ++
  (",\"lang\":".toList ++ (marshalLang p.Lang ++
  (",\"timestamp\":".toList ++ (encodeInt p.Timestamp ++
  (",\"commonJobParams\":".toList ++ (marshalCommonJobParams p.CommonJobParams ++
  "\x7d".toList)))))))))

/-- `json.Marshal(postData)`. -/
def marshalPostData (d : PostData) : List Char :=
  "\x7b\"jsonrpc\":".toList ++ (encodeString d.Jsonrpc ++
  (",\"method\":".toList ++ (encodeString d.Method ++
  (",\"id\":".toList ++ (encodeInt d.ID ++
  (",\"params\":".toList ++ (marshalParams d.Params ++ "\x7d".toList)))))))

/-! ## `strings.Replace` -/

/-- Walks `s`; `skip` is the number of characters of the current match still
to be dropped.  At a position where `old` starts, `new` is written and the
match is dropped. -/
def replaceFrom (old new : List Char) : Nat → List Char → List Char
  | _, [] => []
  | skip + 1, _ :: rest => replaceFrom old new skip rest
  | 0, c :: rest =>
    if old.isPrefixOf (c :: rest) then new ++ replaceFrom old new (old.length - 1) rest
    else c :: replaceFrom old new 0 rest

/-- `strings.Replace(s, old, new, -1)`: every non-overlapping instance of
`old`, leftmost first, becomes `new`; an empty `old` matches before every
character and at the end.  `old` and `new` are ASCII here, so matching
characters is matching bytes. -/
def replaceAll (s old new : List Char) : List Char :=
  if old = new then s
  else if old.isEmpty then new ++ s.flatMap (fun c => c :: new)
  else replaceFrom old new 0 s

/-- The envelope the handler builds: lines 159-169 of `main.go`. -/
def buildPostData (id : Int) (now : Int) (sourceLang targetLang translateText : String) :
    PostData :=
  let postData := initData sourceLang targetLang
  let text : Text := { Text := translateText, RequestAlternatives := 3 }
  let postData := { postData with ID := id }
  let postData :=
    { postData with Params := { postData.Params with Texts := postData.Params.Texts ++ [text] } }
  { postData with
    Params := { postData.Params with Timestamp := getTimeStamp now (getICount translateText) } }

/-- The bytes sent upstream: lines 170-180 of `main.go`. -/
def rewritePayload (id : Int) (postData : PostData) : List Char :=
  let postStr := marshalPostData postData
  if (id + 5).tmod 29 = 0 ∨ (id + 3).tmod 13 = 0 then
    replaceAll postStr "\"method\":\"".toList "\"method\" : \"".toList
  else
    replaceAll postStr "\"method\":\"".toList "\"method\": \"".toList

/-! ## `gjson`: reading the upstream answer -/

/-- A parsed JSON document.  A number carries the text `String()` gives for
it (its source text, for an integer literal); an array and an object carry
their source text, which is what `String()` gives for them.  The member names
of an object are taken to be distinct, so a name selects its first member. -/
inductive Json where
  | null : Json
  | bool (b : Bool) : Json
  | num (text : String) : Json
  | str (s : String) : Json
  | arr (raw : String) (items : List Json) : Json
  | obj (raw : String) (members : List (String × Json)) : Json

/-- A path of `gjson` cut at its dots.  The paths of `main.go` hold no
wildcard, escape, `#`, `|` or `@`. -/
def splitPath : List Char → List (List Char)
  | [] => [[]]
  | c :: cs =>
    if c = '.' then [] :: splitPath cs
    else
      match splitPath cs with
      | [] => [[c]]
      | p :: ps => (c :: p) :: ps

/-- A path component read as an array index: decimal digits only, at least
one. -/
def parseIndex (k : List Char) : Option Nat :=
  if k.isEmpty then none
  else k.foldl (fun acc c => acc.bind fun n => if c.isDigit then some (n * 10 + (c.toNat - 48)) else none) (some 0)

/-- First member of an object under the key `k`. -/
def lookupKey (k : List Char) : List (String × Json) → Option Json
  | [] => none
  | (key, v) :: rest => if key.toList = k then some v else lookupKey k rest

/-- `Result.Get` along the components of a path: a member of an object by its
key, an element of an array by its index, nothing below a scalar. -/
def getPath : Json → List (List Char) → Option Json
  | j, [] => some j
  | Json.obj _ members, k :: rest =>
    match lookupKey k members with
    | some v => getPath v rest
    | none => none
  | Json.arr _ items, k :: rest =>
    match parseIndex k with
    | some n =>
      match items.get? n with
      | some v => getPath v rest
      | none => none
    | none => none
  | _, _ :: _ => none

/-- `Result.Get(path)`; `none` is the result that does not exist. -/
def Json.Get (j : Json) (path : String) : Option Json :=
  getPath j (splitPath path.toList)

/-- `Result.String()`. -/
def resultString : Option Json → String
  | none => ""
  | some Json.null => ""
  | some (Json.bool b) => if b then "true" else "false"
  | some (Json.num text) => text
  | some (Json.str s) => s
  | some (Json.arr raw _) => raw
  | some (Json.obj raw _) => raw

/-- The values `Result.ForEach` hands to an iterator that always returns
true: none for a result that does not exist, the elements of an array, the
member values of an object, and the value itself for a scalar. -/
def forEachValues : Option Json → List Json
  | none => []
  | some (Json.arr _ items) => items
  | some (Json.obj _ members) => members.map Prod.snd
  | some v => [v]

/-! ## `golang.org/x/time/rate`: the limiter -/

/-- `time.Second`, in nanoseconds. -/
def Second : Int := 1000000000

/-- `time.Minute`, in nanoseconds. -/
def Minute : Int := 60 * Second

/-- The state of a `rate.Limiter`.  Times and durations are in nanoseconds.
The limit of one event per interval is held as that interval, and `tokens`
counts nanoseconds of refill, so that one token is worth `limit` and the
arithmetic of the bucket is exact. -/
structure Limiter where
  limit : Int
  burst : Int
  tokens : Int
  last : Int

/-- `rate.Every(interval)` for a positive interval: one event per interval. -/
def Every (interval : Int) : Int :=
  interval

/-- `forEvery`; Go's `/` on durations truncates, which is `Int.tdiv`. -/
def forEvery (eventCount : Int) (duration : Int) : Int :=
  Every (duration.tdiv eventCount)

/-- `rate.NewLimiter(r, b)`: the bucket starts full. -/
def NewLimiter (r : Int) (b : Int) : Limiter :=
  { limit := r, burst := b, tokens := b * r, last := 0 }

/-- The shared `limiter` of `main.go`, as the program starts. -/
def limiter : Limiter :=
  NewLimiter (forEvery 12 Minute) 12

/-- What `Wait` did: the limiter afterwards, the time at which `Wait`
returns, and its error. -/
structure Waited where
  limiter : Limiter
  done : Int
  err : Option String

/-- `Limiter.advance(t)`: the tokens the bucket holds at time `t`, refilled for
the time since `last` and capped at the burst. -/
def Limiter.advance (lim : Limiter) (t : Int) : Int :=
  let last := if t < lim.last then t else lim.last
  let elapsed := t - last
  let tokens := lim.tokens + elapsed
  if tokens > lim.burst * lim.limit then lim.burst * lim.limit else tokens

/-- `Limiter.Wait(ctx)` called at time `now`, for a context that is never
cancelled and has no deadline (`context.Background()`, and the context of a
request made by `http.NewRequest`).  One token above the burst is refused;
otherwise one token is taken from the bucket as it is at `now`, and `Wait`
sleeps for the time the missing part of that token needs. -/
def Limiter.Wait (lim : Limiter) (now : Int) : Waited :=
  if 1 > lim.burst then
    { limiter := lim, done := now, err := some "rate: Wait(n=1) exceeds limiter's burst" }
  else
    let tokens := lim.advance now
    let tokens := tokens - lim.limit
    let waitDuration := if tokens < 0 then -tokens else 0
    { limiter := { lim with last := now, tokens := tokens },
      done := now + waitDuration, err := none }

/-! ## `gin`: the response writer -/

/-- The `gin.H` bodies the handler writes. -/
inductive Body where
  | message (code : Nat) (message : String) : Body
  | translation (code : Nat) (id : Int) (data : String) (alternatives : List String) : Body

/-- One `c.JSON(status, body)`. -/
structure Reply where
  status : Nat
  body : Body

/-- The response writer of `gin`: the status of the response, whether the
header went out, and the bodies written after it, each with the status its
`c.JSON` asked for. -/
structure Writer where
  status : Nat
  written : Bool
  replies : List Reply

/-- The writer a request starts with. -/
def newWriter : Writer :=
  { status := 200, written := false, replies := [] }

/-- `WriteHeader(code)`: sets the status, unless the header went out. -/
def Writer.WriteHeader (w : Writer) (code : Nat) : Writer :=
  if code > 0 ∧ w.status ≠ code then
    if w.written then w else { w with status := code }
  else w

/-- `WriteHeaderNow()`: the header goes out with the status held. -/
def Writer.WriteHeaderNow (w : Writer) : Writer :=
  { w with written := true }

/-- `bodyAllowedForStatus` of `gin`. -/
def bodyAllowedForStatus (status : Nat) : Bool :=
  if 100 ≤ status ∧ status ≤ 199 then false
  else if status = 204 then false
  else if status = 304 then false
  else true

/-- `c.JSON(code, body)`: `WriteHeader(code)`, then the header and the body go
out. -/
def Writer.JSON (w : Writer) (code : Nat) (body : Body) : Writer :=
  let w := w.WriteHeader code
  if bodyAllowedForStatus code then
    let w := w.WriteHeaderNow
    { w with replies := w.replies ++ [⟨code, body⟩] }
  else w.WriteHeaderNow

/-- `c.AbortWithStatus(code)`. -/
def Writer.AbortWithStatus (w : Writer) (code : Nat) : Writer :=
  (w.WriteHeader code).WriteHeaderNow

/-- The effect of `c.BindJSON(&reqj)` on the response: `MustBindWith` aborts
with status 400 when binding fails. -/
def BindJSON (w : Writer) (bindErr : Option String) : Writer :=
  match bindErr with
  | some _ => w.AbortWithStatus 400
  | none => w

/-! ## The `/translate` handler -/

/-- An upstream answer: `resp.StatusCode` and the parsed `resp.Body`. -/
structure Response where
  StatusCode : Nat
  Body : Json

/-- An inbound request as `c.BindJSON(&reqj)` leaves it: the struct with the
fields that were decoded, and the error of the binding.  The body `{}` binds
to the empty struct with no error; an empty body leaves the empty struct with
an error; `{"text":"Hello","source_lang":5}` sets the text and gives an
error. -/
structure Inbound where
  reqj : ResData
  bindErr : Option String

/-- One request handed to `client.Do`. -/
structure Call where
  envelope : PostData
  payload : List Char

/-- What surrounds one run of the handler: the language detector
(`whatlanggo.DetectLang`, `Iso6391`, `strings.ToUpper`), the wall clock
(`time.Now().UnixMilli()`), the clock of the limiter when `rateLimitRequest`
is entered, and what the transport below the limiter (`http.DefaultTransport`)
returns for this request: an error or the upstream answer. -/
structure Env where
  detectLang : String → String
  now : Int
  clock : Int
  roundTrip : Except String Response

/-- What an outbound call gave: the pair `(resp, err)`, the limiter
afterwards, and the time at which the request went to the transport below the
limiter, if it did. -/
structure Exchange where
  resp : Option Response
  err : Option String
  limiter : Limiter
  sentAt : Option Int

/-- `rateLimitedTransport.RoundTrip`, called at time `now` with the limiter
`rl`: waits on the limiter, returns its error if there is one, and hands the
request to the transport below. -/
def RoundTrip (rl : Limiter) (now : Int) (rt : Except String Response) : Exchange :=
  let waited := rl.Wait now
  match waited.err with
  | some err => { resp := none, err := some err, limiter := waited.limiter, sentAt := none }
  | none =>
    match rt with
    | Except.error err =>
      { resp := none, err := some err, limiter := waited.limiter, sentAt := some waited.done }
    | Except.ok resp =>
      { resp := some resp, err := none, limiter := waited.limiter, sentAt := some waited.done }

/-- `rateLimitRequest`: waits on the limiter, dropping the error of that wait,
then `client.Do`, which makes one `RoundTrip` on the same limiter when the
answer is not a redirect. -/
def rateLimitRequest (env : Env) (lim : Limiter) : Exchange :=
  let waited := lim.Wait env.clock
  let done := RoundTrip waited.limiter waited.done env.roundTrip
  if done.err.isSome then { done with resp := none } else done

/-- What one run of the handler did: the response, the upstream calls made,
the id counter and the limiter afterwards, the time at which the call went to
the transport, and whether the run ended in a nil dereference. -/
structure Outcome where
  response : Writer
  calls : List Call
  id : Int
  limiter : Limiter
  sentAt : Option Int
  fault : Bool

/-- The `c.JSON` calls of a run, in order. -/
def Outcome.replies (out : Outcome) : List Reply :=
  out.response.replies

/-- The part of the handler after `rateLimitRequest` returned: lines 202-242.
The deferred `resp.Body.Close()` reads `resp.Body` when the `defer` statement
is reached, which is the nil dereference when `resp` is nil; by then the 429
has gone out, so the recovery of `gin.Default()` leaves the response as it
is. -/
def afterRequest (w : Writer) (id : Int) (call : Call) (done : Exchange) : Outcome :=
  let w := if done.err.isSome then w.JSON 429 (Body.message 429 "rate limit exceeded") else w
  match done.resp with
  | none =>
    { response := w, calls := [call], id := id, limiter := done.limiter,
      sentAt := done.sentAt, fault := true }
  | some resp =>
    let res := resp.Body
    if resultString (res.Get "error.code") = "-32600" then
      { response := w.JSON 406 (Body.message 406 "Invalid targetLang"),
        calls := [call], id := id, limiter := done.limiter, sentAt := done.sentAt,
        fault := false }
    else if resp.StatusCode = 429 then
      { response := w.JSON 429 (Body.message 429 "Too Many Requests"),
        calls := [call], id := id, limiter := done.limiter, sentAt := done.sentAt,
        fault := false }
    else
      let alternatives :=
        (forEachValues (res.Get "result.texts.0.alternatives")).map
          fun value => resultString (value.Get "text")
      { response := w.JSON 200
          (Body.translation 200 id (resultString (res.Get "result.texts.0.text")) alternatives),
        calls := [call], id := id, limiter := done.limiter, sentAt := done.sentAt,
        fault := false }

/-- The `POST /translate` handler: lines 136-243.  `id` and `lim` are the
counter and the limiter before the request. -/
def translate (env : Env) (id : Int) (lim : Limiter) (inb : Inbound) : Outcome :=
  let reqj := inb.reqj
  let w := BindJSON newWriter inb.bindErr
  let sourceLang := reqj.SourceLang
  let targetLang := reqj.TargetLang
  let translateText := reqj.TransText
  let sourceLang := if sourceLang = "" then env.detectLang translateText else sourceLang
  let targetLang := if targetLang = "" then "EN" else targetLang
  if translateText = "" then
    { response := w.JSON 404 (Body.message 404 "No Translate Text Found"),
      calls := [], id := id, limiter := lim, sentAt := none, fault := false }
  else
    let id := id + 1
    let postData := buildPostData id env.now sourceLang targetLang translateText
    let payload := rewritePayload id postData
    let done := rateLimitRequest env lim
    afterRequest w id ⟨postData, payload⟩ done

/-- Member of an object under a name; nothing for any other value. -/
def Json.member (j : Json) (name : String) : Option Json :=
  match j with
  | Json.obj _ members => lookupKey name.toList members
  | _ => none

/-- Requests handled one after another: each run starts from the counter and
the limiter the previous one left. -/
def serve : Int → Limiter → List (Env × Inbound) → List Outcome
  | _, _, [] => []
  | id, lim, (env, inb) :: rest =>
    let out := translate env id lim inb
    out :: serve out.id out.limiter rest

/-- Number of requests with non-empty text. -/
def countTexts (reqs : List (Env × Inbound)) : Nat :=
  reqs.countP fun q => decide (q.2.reqj.TransText ≠ "")

/-- The ids of the envelopes sent upstream, in order. -/
def sentIds (outs : List Outcome) : List Int :=
  outs.flatMap fun o => o.calls.map fun c => c.envelope.ID

/-- Whether the requests come back to back from time `t`: each has a text,
the first enters at `t`, and each next one enters when the call before it went
to the transport. -/
def backToBack : Int → Int → Limiter → List (Env × Inbound) → Bool
  | _, _, _, [] => true
  | t, id, lim, (env, inb) :: rest =>
    let out := translate env id lim inb
    decide (env.clock = t) && decide (inb.reqj.TransText ≠ "") &&
      backToBack (out.sentAt.getD t) out.id out.limiter rest

/-- Whether the clock of the limiter does not run backwards: the first request
enters at `t` or later, and each next one enters no earlier than the call
before it went to the transport. -/
def inOrder : Int → Int → Limiter → List (Env × Inbound) → Bool
  | _, _, _, [] => true
  | t, id, lim, (env, inb) :: rest =>
    let out := translate env id lim inb
    decide (t ≤ env.clock) && inOrder (out.sentAt.getD env.clock) out.id out.limiter rest

/-! ## A scanner for the window `od":"` -/

/-- One step of a scanner for the five characters `od":"`; the state is the
number of characters of the window just read. -/
def scanStep : Nat → Char → Nat
  | 0, c => if c = 'o' then 1 else 0
  | 1, c => if c = 'd' then 2 else if c = 'o' then 1 else 0
  | 2, c => if c = '"' then 3 else if c = 'o' then 1 else 0
  | 3, c => if c = ':' then 4 else if c = 'o' then 1 else 0
  | 4, c => if c = '"' then 5 else if c = 'o' then 1 else 0
  | _, c => if c = 'o' then 1 else 0

/-- State of the scanner after reading `l` from state `s`. -/
def scanRun : Nat → List Char → Nat
  | s, [] => s
  | s, c :: l => scanRun (scanStep s c) l

/-- Whether the scanner, started in state `s`, reads the whole window
somewhere in `l`. -/
def scanHits : Nat → List Char → Bool
  | _, [] => false
  | s, c :: l => scanStep s c == 5 || scanHits (scanStep s c) l

/-- The bytes of the encoded envelope that follow `"method":"`. -/
def payloadTail (id ts : Int) (text src tgt : String) : List Char :=
  "LMT_handle_texts\",\"id\":".toList ++ (encodeInt id ++
  (",\"params\":\x7b\"texts\":[\x7b\"text\":".toList ++ (encodeString text ++
  (",\"requestAlternatives\":3\x7d],\"splitting\":\"newlines\",\"lang\":\x7b\"source_lang_user_selected\":".toList ++
  (encodeString src ++
  (",\"target_lang\":".toList ++ (encodeString tgt ++
  ("\x7d,\"timestamp\":".toList ++ (encodeInt ts ++
  ",\"commonJobParams\":\x7b\"wasSpoken\":false,\"transcribe_as\":\"\"\x7d\x7d\x7d".toList)))))))))

/-! ## Sample inputs -/

/-- A request for the translation of "Hello" from English to French. -/
def helloRequest : Inbound :=
  { reqj := { TransText := "Hello", SourceLang := "EN", TargetLang := "FR" }, bindErr := none }

/-- A POST with an empty body: nothing is decoded and the binding fails. -/
def emptyBody : Inbound :=
  { reqj := { TransText := "", SourceLang := "", TargetLang := "" }, bindErr := some "EOF" }

/-- The body `{"text":"Hello","source_lang":5}`: the text is decoded and the
binding fails on the number. -/
def mistypedRequest : Inbound :=
  { reqj := { TransText := "Hello", SourceLang := "", TargetLang := "" },
    bindErr :=
      some "json: cannot unmarshal number into Go struct field ResData.source_lang of type string" }

/-- The upstream answer `{"result":{"texts":[{"text":"Bonjour","alternatives":[{"text":"Salut"}]}]}}`. -/
def bonjourBody : Json :=
  Json.obj "\x7b\"result\":\x7b\"texts\":[\x7b\"text\":\"Bonjour\",\"alternatives\":[\x7b\"text\":\"Salut\"\x7d]\x7d]\x7d\x7d"
    [("result",
      Json.obj "\x7b\"texts\":[\x7b\"text\":\"Bonjour\",\"alternatives\":[\x7b\"text\":\"Salut\"\x7d]\x7d]\x7d"
        [("texts",
          Json.arr "[\x7b\"text\":\"Bonjour\",\"alternatives\":[\x7b\"text\":\"Salut\"\x7d]\x7d]"
            [Json.obj "\x7b\"text\":\"Bonjour\",\"alternatives\":[\x7b\"text\":\"Salut\"\x7d]\x7d"
              [("text", Json.str "Bonjour"),
               ("alternatives",
                Json.arr "[\x7b\"text\":\"Salut\"\x7d]"
                  [Json.obj "\x7b\"text\":\"Salut\"\x7d" [("text", Json.str "Salut")]])]])])]

/-- An upstream that answers 200 with `bonjourBody`. -/
def bonjourEnv : Env :=
  { detectLang := fun _ => "EN"
    now := 1700000000000
    clock := 0
    roundTrip := Except.ok { StatusCode := 200, Body := bonjourBody } }

/-- The upstream answer `{"error":{"code":-32600,"message":"Invalid Request"}}`. -/
def invalidRequestBody : Json :=
  Json.obj "\x7b\"error\":\x7b\"code\":-32600,\"message\":\"Invalid Request\"\x7d\x7d"
    [("error",
      Json.obj "\x7b\"code\":-32600,\"message\":\"Invalid Request\"\x7d"
        [("code", Json.num "-32600"), ("message", Json.str "Invalid Request")])]

/-- An upstream that answers 429 with `invalidRequestBody`. -/
def invalidRequestEnv : Env :=
  { detectLang := fun _ => "EN"
    now := 1700000000000
    clock := 0
    roundTrip := Except.ok { StatusCode := 429, Body := invalidRequestBody } }

/-- An upstream that cannot be reached. -/
def unreachableEnv : Env :=
  { detectLang := fun _ => "EN"
    now := 1700000000000
    clock := 0
    roundTrip := Except.error "dial tcp: i/o timeout" }

/-- Three requests in a row: one answered, one with empty text, one that
does not reach the upstream. -/
def sampleRequests : List (Env × Inbound) :=
  [(bonjourEnv, helloRequest),
   (bonjourEnv,
    { reqj := { TransText := "", SourceLang := "", TargetLang := "" }, bindErr := none }),
   (unreachableEnv, helloRequest)]

/-- The upstream of `bonjourEnv`, for a request that enters at `clock`. -/
def bonjourAt (clock : Int) : Env :=
  { bonjourEnv with clock := clock }

/-- Eight requests back to back from time 0: seven enter at once, the eighth
when the seventh went out. -/
def burstRequests : List (Env × Inbound) :=
  List.replicate 7 (bonjourAt 0, helloRequest) ++ [(bonjourAt (10 * Second), helloRequest)]

/-! ## The timestamp -/

theorem getTimeStamp_of_pos (ts c : Int) (hts : 0 ≤ ts) (hc : 0 < c) :
    getTimeStamp ts c = ts - ts % (c + 1) + (c + 1) := by
  have hne : c ≠ 0 := by omega
  simp only [getTimeStamp, hne, ne_eq, not_false_eq_true, if_true]
  rw [Int.tmod_eq_emod hts (by omega)]

theorem getTimeStamp_eq_mul (ts c : Int) (hts : 0 ≤ ts) (hc : 0 < c) :
    getTimeStamp ts c = (c + 1) * (ts / (c + 1) + 1) := by
  rw [getTimeStamp_of_pos ts c hts hc]
  have h := Int.emod_add_ediv ts (c + 1)
  linarith

/-- C1, as stated, fails: at the time 1700000000000 and the text "hi", which
holds one `i`, the timestamp is 1700000000002 and its remainder modulo 2 is 0,
not 1. -/
theorem timestamp_remainder_not_one :
    ¬ (getTimeStamp 1700000000000 (getICount "hi") % (getICount "hi" + 1) = 1) := by
  decide

/-- C1, amended: for a time `ts ≥ 0` and a text with `c > 0` characters `i`,
the timestamp is a multiple of `c + 1`: its remainder modulo `c + 1` is 0. -/
theorem timestamp_remainder_zero (ts : Int) (text : String) (hts : 0 ≤ ts)
    (hc : 0 < getICount text) :
    getTimeStamp ts (getICount text) % (getICount text + 1) = 0 := by
  rw [getTimeStamp_eq_mul ts _ hts hc]
  exact Int.mul_emod_right _ _

theorem timestamp_remainder_zero_witness :
    (0 : Int) ≤ 1700000000000 ∧ 0 < getICount "hi" ∧
    getTimeStamp 1700000000000 (getICount "hi") % (getICount "hi" + 1) = 0 :=
  ⟨by decide, by decide, timestamp_remainder_zero 1700000000000 "hi" (by decide) (by decide)⟩

/-- C9: for a time `ts ≥ 0` and a count `c ≥ 0`, the timestamp is `ts` when
`c = 0`; when `c > 0` it is a multiple of `c + 1`, lies in `(ts, ts + c + 1]`,
and no multiple of `c + 1` above `ts` is smaller. -/
theorem timestamp_next_multiple (ts : Int) (c : Nat) (hts : 0 ≤ ts) :
    (c = 0 → getTimeStamp ts c = ts) ∧
    (0 < c →
      ((c : Int) + 1) ∣ getTimeStamp ts c ∧
      ts < getTimeStamp ts c ∧
      getTimeStamp ts c ≤ ts + c + 1 ∧
      ∀ m : Int, ((c : Int) + 1) ∣ m → ts < m → getTimeStamp ts c ≤ m) := by
  refine ⟨fun h => by simp [getTimeStamp, h], fun hpos => ?_⟩
  have hc : (0 : Int) < c := by exact_mod_cast hpos
  have hn : (0 : Int) < c + 1 := by omega
  have hr0 := Int.emod_nonneg ts (ne_of_gt hn)
  have hr1 := Int.emod_lt_of_pos ts hn
  have hform := getTimeStamp_of_pos ts c hts hc
  have hmul := getTimeStamp_eq_mul ts c hts hc
  refine ⟨?_, by omega, by omega, ?_⟩
  · rw [hmul]; exact Dvd.intro _ rfl
  · rintro m ⟨k, rfl⟩ hlt
    rw [hmul]
    have hdiv := Int.emod_add_ediv ts (c + 1)
    have hk : ts / ((c : Int) + 1) + 1 ≤ k := by
      by_contra hcon
      have hk' : k ≤ ts / ((c : Int) + 1) := by omega
      have : ((c : Int) + 1) * k ≤ ((c : Int) + 1) * (ts / ((c : Int) + 1)) :=
        Int.mul_le_mul_of_nonneg_left hk' (le_of_lt hn)
      linarith
    exact Int.mul_le_mul_of_nonneg_left hk (le_of_lt hn)

theorem timestamp_next_multiple_witness :
    getTimeStamp 1700000000001 0 = 1700000000001 ∧
    getTimeStamp 1700000000001 2 = 1700000000004 ∧
    ((2 : Int) + 1) ∣ getTimeStamp 1700000000001 2 ∧
    (1700000000001 : Int) < getTimeStamp 1700000000001 2 ∧
    getTimeStamp 1700000000001 2 ≤ 1700000000001 + 2 + 1 :=
  ⟨(timestamp_next_multiple 1700000000001 0 (by decide)).1 rfl,
   by decide,
   ((timestamp_next_multiple 1700000000001 2 (by decide)).2 (by decide)).1,
   ((timestamp_next_multiple 1700000000001 2 (by decide)).2 (by decide)).2.1,
   ((timestamp_next_multiple 1700000000001 2 (by decide)).2 (by decide)).2.2.1⟩

/-! ## No `"method":"` survives the rewrite -/

theorem scanRun_append (s : Nat) (a b : List Char) :
    scanRun s (a ++ b) = scanRun (scanRun s a) b := by
  induction a generalizing s with
  | nil => rfl
  | cons c a ih => simp [scanRun, ih]

theorem scanHits_append (s : Nat) (a b : List Char) :
    scanHits s (a ++ b) = (scanHits s a || scanHits (scanRun s a) b) := by
  induction a generalizing s with
  | nil => simp [scanHits, scanRun]
  | cons c a ih => simp [scanHits, scanRun, ih, Bool.or_assoc]

theorem scanStep_o (s : Nat) : scanStep s 'o' = 1 := by
  unfold scanStep
  split <;> simp

theorem scanHits_window (s : Nat) (b : List Char) :
    scanHits s ("od\":\"".toList ++ b) = true := by
  show scanHits s ('o' :: 'd' :: '"' :: ':' :: '"' :: b) = true
  simp only [scanHits, scanStep_o]
  simp [scanStep]

theorem scanHits_of_window (l : List Char) (h : "od\":\"".toList <:+: l) (s : Nat) :
    scanHits s l = true := by
  obtain ⟨a, b, rfl⟩ := h
  rw [List.append_assoc, scanHits_append, scanHits_window]
  simp

theorem method_absent_of_scanHits (l : List Char) (h : scanHits 0 l = false) :
    ¬ "\"method\":\"".toList <:+: l := by
  intro hin
  have hw : "od\":\"".toList <:+: "\"method\":\"".toList :=
    ⟨"\"meth".toList, [], by decide⟩
  have := scanHits_of_window l (hw.trans hin) 0
  rw [h] at this
  exact Bool.false_ne_true this

theorem marshal_buildPostData (id now : Int) (src tgt text : String) :
    marshalPostData (buildPostData id now src tgt text) =
      "\x7b\"jsonrpc\":\"2.0\",".toList ++ ("\"method\":\"".toList ++
        payloadTail id (getTimeStamp now (getICount text)) text src tgt) := by
  have e1 : encodeString "2.0" = "\"2.0\"".toList := by decide
  have e2 : encodeString "LMT_handle_texts" = "\"LMT_handle_texts\"".toList := by decide
  have e3 : encodeString "newlines" = "\"newlines\"".toList := by decide
  have e4 : encodeString "" = "\"\"".toList := by decide
  have e5 : encodeInt 3 = "3".toList := by decide
  have e6 : encodeBool false = "false".toList := by decide
  simp only [marshalPostData, buildPostData, initData, marshalParams, marshalTexts,
    marshalText, marshalLang, marshalCommonJobParams, joinComma, payloadTail, e1, e2, e3, e4, e5,
    e6, List.nil_append, List.map, List.isEmpty_cons, List.append_assoc, List.cons_append,
    Bool.false_eq_true, if_false]
  rfl

theorem scan_no_o (l : List Char) (h : ∀ c ∈ l, c ≠ 'o') :
    scanRun 0 l = 0 ∧ scanHits 0 l = false := by
  induction l with
  | nil => exact ⟨rfl, rfl⟩
  | cons c l ih =>
    have hc : c ≠ 'o' := h c (List.mem_cons_self _ _)
    have ih' := ih (fun d hd => h d (List.mem_cons_of_mem _ hd))
    simp [scanRun, scanHits, scanStep, hc, ih'.1, ih'.2]

theorem digitChar_ne_o : ∀ k, k < 10 → Nat.digitChar k ≠ 'o' := by decide

theorem natDigits_no_o (fuel n : Nat) (acc : List Char) (h : ∀ c ∈ acc, c ≠ 'o') :
    ∀ c ∈ natDigits fuel n acc, c ≠ 'o' := by
  induction fuel generalizing n acc with
  | zero => simpa [natDigits] using h
  | succ fuel ih =>
    have hacc : ∀ c ∈ Nat.digitChar (n % 10) :: acc, c ≠ 'o' := by
      intro c hc
      rcases List.mem_cons.1 hc with rfl | hc
      · exact digitChar_ne_o _ (Nat.mod_lt _ (by decide))
      · exact h c hc
    unfold natDigits
    by_cases h0 : n / 10 = 0
    · simpa [h0] using hacc
    · simpa [h0] using ih (n / 10) _ hacc

theorem encodeInt_no_o (n : Int) : ∀ c ∈ encodeInt n, c ≠ 'o' := by
  unfold encodeInt
  split
  · intro c hc
    rcases List.mem_cons.1 hc with rfl | hc
    · decide
    · exact natDigits_no_o _ _ [] (by simp) c hc
  · exact natDigits_no_o _ _ [] (by simp)

theorem scan_encodeInt (n : Int) (rest : List Char) :
    scanRun 0 (encodeInt n ++ rest) = scanRun 0 rest ∧
    scanHits 0 (encodeInt n ++ rest) = scanHits 0 rest := by
  have h := scan_no_o (encodeInt n) (encodeInt_no_o n)
  rw [scanRun_append, scanHits_append, h.1, h.2]
  simp

theorem scanStep_backslash (s : Nat) : scanStep s '\\' = 0 := by
  unfold scanStep
  split <;> simp

theorem scan_two (x y : Char) : scanRun 0 [x, y] ≤ 2 ∧ scanHits 0 [x, y] = false := by
  simp only [scanRun, scanHits, scanStep]
  by_cases hx : x = 'o' <;> by_cases hy : y = 'd' <;> by_cases hy' : y = 'o' <;>
    simp [hx, hy, hy', scanStep]

theorem scan_plain (s : Nat) (hs : s ≤ 2) (c : Char) (hc : c ≠ '"') :
    scanStep s c ≤ 2 ∧ (scanStep s c == 5) = false := by
  interval_cases s <;> simp only [scanStep] <;> split_ifs <;> simp_all

theorem scan_backslash (s : Nat) (l : List Char) :
    scanRun s ('\\' :: l) = scanRun 0 l ∧ scanHits s ('\\' :: l) = scanHits 0 l := by
  simp only [scanRun, scanHits, scanStep_backslash]
  simp

theorem scan_escapeChar (c : Char) (s : Nat) (hs : s ≤ 2) :
    scanRun s (escapeChar c) ≤ 2 ∧ scanHits s (escapeChar c) = false := by
  unfold escapeChar
  split_ifs with h1 h2 h3 h4 h5 h6
  · rcases h1 with rfl | rfl <;>
      rw [(scan_backslash s _).1, (scan_backslash s _).2] <;> decide
  · rw [(scan_backslash s _).1, (scan_backslash s _).2]; decide
  · rw [(scan_backslash s _).1, (scan_backslash s _).2]; decide
  · rw [(scan_backslash s _).1, (scan_backslash s _).2]; decide
  · rw [(scan_backslash s _).1, (scan_backslash s _).2]
    exact scan_two (hexDigit (c.toNat / 16)) (hexDigit (c.toNat % 16))
  · rw [(scan_backslash s _).1, (scan_backslash s _).2]
    have h := scan_two '2' (hexDigit (c.toNat % 16))
    exact h
  · have hq : c ≠ '"' := fun hq => h1 (Or.inl hq)
    have h := scan_plain s hs c hq
    simpa [scanRun, scanHits] using h

theorem scan_body (cs : List Char) (s : Nat) (hs : s ≤ 2) :
    scanRun s (cs.flatMap escapeChar) ≤ 2 ∧ scanHits s (cs.flatMap escapeChar) = false := by
  induction cs generalizing s with
  | nil => exact ⟨hs, rfl⟩
  | cons c cs ih =>
    have hc := scan_escapeChar c s hs
    have hrest := ih (scanRun s (escapeChar c)) hc.1
    rw [List.flatMap_cons, scanRun_append, scanHits_append, hc.2]
    exact ⟨hrest.1, by simpa using hrest.2⟩

/-- Scanning an encoded string that is followed by a character other than
`:` and `o` takes state 0 to state 0 and finds no window. -/
theorem scan_encodeString (str : String) (c : Char) (rest : List Char)
    (h1 : c ≠ ':') (h2 : c ≠ 'o') :
    scanRun 0 (encodeString str ++ c :: rest) = scanRun 0 rest ∧
    scanHits 0 (encodeString str ++ c :: rest) = scanHits 0 rest := by
  have hb := scan_body str.toList 0 (by decide)
  have e : encodeString str ++ c :: rest =
      '"' :: (str.toList.flatMap escapeChar ++ ('"' :: c :: rest)) := by
    simp [encodeString]
  have hq : scanStep 0 '"' = 0 := by decide
  rw [e]
  simp only [scanRun, scanHits, hq]
  rw [scanRun_append, scanHits_append, hb.2]
  generalize scanRun 0 (str.toList.flatMap escapeChar) = k at hb ⊢
  have hk := hb.1
  interval_cases k <;> simp [scanRun, scanHits, scanStep, h1, h2]

theorem scan_literal (l rest : List Char) (hr : scanRun 0 l = 0) (hh : scanHits 0 l = false) :
    scanRun 0 (l ++ rest) = scanRun 0 rest ∧ scanHits 0 (l ++ rest) = scanHits 0 rest := by
  rw [scanRun_append, scanHits_append, hr, hh]
  simp

theorem scanHits_payloadTail (id ts : Int) (text src tgt : String) :
    scanHits 0 (payloadTail id ts text src tgt) = false := by
  have l3 : ",\"requestAlternatives\":3\x7d],\"splitting\":\"newlines\",\"lang\":\x7b\"source_lang_user_selected\":".toList
      = ',' :: "\"requestAlternatives\":3\x7d],\"splitting\":\"newlines\",\"lang\":\x7b\"source_lang_user_selected\":".toList := rfl
  have l4 : ",\"target_lang\":".toList = ',' :: "\"target_lang\":".toList := rfl
  have l5 : "\x7d,\"timestamp\":".toList = '}' :: ",\"timestamp\":".toList := rfl
  unfold payloadTail
  rw [(scan_literal "LMT_handle_texts\",\"id\":".toList _ (by simp [String.toList, scanRun, scanStep])
      (by simp [String.toList, scanHits, scanStep])).2,
    (scan_encodeInt _ _).2,
    (scan_literal ",\"params\":\x7b\"texts\":[\x7b\"text\":".toList _ (by simp [String.toList, scanRun, scanStep])
      (by simp [String.toList, scanHits, scanStep])).2,
    l3, List.cons_append, (scan_encodeString _ _ _ (by simp [String.toList, scanRun, scanStep])
      (by simp [String.toList, scanHits, scanStep])).2,
    (scan_literal "\"requestAlternatives\":3\x7d],\"splitting\":\"newlines\",\"lang\":\x7b\"source_lang_user_selected\":".toList
      _ (by simp [String.toList, scanRun, scanStep])
      (by simp [String.toList, scanHits, scanStep])).2,
    l4, List.cons_append, (scan_encodeString _ _ _ (by simp [String.toList, scanRun, scanStep])
      (by simp [String.toList, scanHits, scanStep])).2,
    (scan_literal "\"target_lang\":".toList _ (by simp [String.toList, scanRun, scanStep])
      (by simp [String.toList, scanHits, scanStep])).2,
    l5, List.cons_append, (scan_encodeString _ _ _ (by simp [String.toList, scanRun, scanStep])
      (by simp [String.toList, scanHits, scanStep])).2,
    (scan_literal ",\"timestamp\":".toList _ (by simp [String.toList, scanRun, scanStep])
      (by simp [String.toList, scanHits, scanStep])).2,
    (scan_encodeInt _ _).2]
  simp [String.toList, scanHits, scanStep]

theorem replaceFrom_of_absent (old new : List Char) (l : List Char)
    (h : ¬ old <:+: l) : replaceFrom old new 0 l = l := by
  induction l with
  | nil => rfl
  | cons c l ih =>
    have hp : old.isPrefixOf (c :: l) = false := by
      cases hb : old.isPrefixOf (c :: l) with
      | false => rfl
      | true => exact absurd (List.isPrefixOf_iff_prefix.1 hb).isInfix h
    have hl : ¬ old <:+: l := fun hin => h (hin.trans (List.suffix_cons c l).isInfix)
    simp only [replaceFrom, hp, ih hl]
    simp

theorem replaceFrom_head (new post : List Char) :
    replaceFrom "\"method\":\"".toList new 0
        ("\x7b\"jsonrpc\":\"2.0\",".toList ++ ("\"method\":\"".toList ++ post)) =
      "\x7b\"jsonrpc\":\"2.0\",".toList ++
        (new ++ replaceFrom "\"method\":\"".toList new 0 post) := by
  have e1 : "\"method\":\"".toList = ['"', 'm', 'e', 't', 'h', 'o', 'd', '"', ':', '"'] := rfl
  have e2 : "\x7b\"jsonrpc\":\"2.0\",".toList =
      ['{', '"', 'j', 's', 'o', 'n', 'r', 'p', 'c', '"', ':', '"', '2', '.', '0', '"', ','] := rfl
  rw [e1, e2]
  simp [replaceFrom, List.isPrefixOf]

theorem replaceAll_method (new : List Char) (hne : "\"method\":\"".toList ≠ new)
    (id ts : Int) (text src tgt : String) :
    replaceAll ("\x7b\"jsonrpc\":\"2.0\",".toList ++ ("\"method\":\"".toList ++
        payloadTail id ts text src tgt)) "\"method\":\"".toList new =
      "\x7b\"jsonrpc\":\"2.0\",".toList ++ (new ++ payloadTail id ts text src tgt) := by
  have hempty : "\"method\":\"".toList.isEmpty = false := rfl
  unfold replaceAll
  rw [if_neg hne, hempty, replaceFrom_head,
    replaceFrom_of_absent _ _ _
      (method_absent_of_scanHits _ (scanHits_payloadTail id ts text src tgt))]
  simp

theorem rewritePayload_buildPostData (id now : Int) (src tgt text : String) :
    rewritePayload id (buildPostData id now src tgt text) =
      "\x7b\"jsonrpc\":\"2.0\",".toList ++
        ((if (id + 5).tmod 29 = 0 ∨ (id + 3).tmod 13 = 0 then "\"method\" : \"".toList
          else "\"method\": \"".toList) ++
        payloadTail id (getTimeStamp now (getICount text)) text src tgt) := by
  unfold rewritePayload
  simp only [marshal_buildPostData]
  split_ifs
  · exact replaceAll_method _ (by decide) _ _ _ _ _
  · exact replaceAll_method _ (by decide) _ _ _ _ _

theorem scanHits_rewritePayload (id now : Int) (src tgt text : String) :
    scanHits 0 (rewritePayload id (buildPostData id now src tgt text)) = false := by
  rw [rewritePayload_buildPostData]
  rw [(scan_literal "\x7b\"jsonrpc\":\"2.0\",".toList _ (by simp [String.toList, scanRun, scanStep])
      (by simp [String.toList, scanHits, scanStep])).2]
  split_ifs
  · rw [(scan_literal "\"method\" : \"".toList _ (by simp [String.toList, scanRun, scanStep])
      (by simp [String.toList, scanHits, scanStep])).2]
    exact scanHits_payloadTail _ _ _ _ _
  · rw [(scan_literal "\"method\": \"".toList _ (by simp [String.toList, scanRun, scanStep])
      (by simp [String.toList, scanHits, scanStep])).2]
    exact scanHits_payloadTail _ _ _ _ _

/-- C8: the rewrite changes the encoded envelope at the separator of the
method field only: what precedes the field and what follows it are kept, and
the field has a space on both sides of the colon exactly when
`(id+5) % 29 == 0` or `(id+3) % 13 == 0`, a space after the colon otherwise. -/
theorem rewrite_changes_only_method_separator (id now : Int) (src tgt text : String) :
    ∃ post : List Char,
      marshalPostData (buildPostData id now src tgt text) =
        "\x7b\"jsonrpc\":\"2.0\",".toList ++ ("\"method\":\"LMT_handle_texts\"".toList ++ post) ∧
      rewritePayload id (buildPostData id now src tgt text) =
        "\x7b\"jsonrpc\":\"2.0\",".toList ++
          ((if (id + 5).tmod 29 = 0 ∨ (id + 3).tmod 13 = 0
            then "\"method\" : \"LMT_handle_texts\"".toList
            else "\"method\": \"LMT_handle_texts\"".toList) ++ post) := by
  refine ⟨",\"id\":".toList ++ (encodeInt id ++
    (",\"params\":\x7b\"texts\":[\x7b\"text\":".toList ++ (encodeString text ++
    (",\"requestAlternatives\":3\x7d],\"splitting\":\"newlines\",\"lang\":\x7b\"source_lang_user_selected\":".toList ++
    (encodeString src ++
    (",\"target_lang\":".toList ++ (encodeString tgt ++
    ("\x7d,\"timestamp\":".toList ++ (encodeInt (getTimeStamp now (getICount text)) ++
    ",\"commonJobParams\":\x7b\"wasSpoken\":false,\"transcribe_as\":\"\"\x7d\x7d\x7d".toList))))))))), ?_, ?_⟩
  · rw [marshal_buildPostData]; rfl
  · rw [rewritePayload_buildPostData]
    split_ifs <;> rfl

/-! ## The handler -/

theorem getPath_nil (j : Json) : getPath j [] = some j := by
  cases j <;> simp [getPath]

theorem getPath_name (j : Json) (name : String) (rest : List (List Char))
    (hk : parseIndex name.toList = none) :
    getPath j (name.toList :: rest) = (j.member name).bind fun v => getPath v rest := by
  cases j with
  | obj raw members =>
    simp only [getPath, Json.member]
    cases lookupKey name.toList members <;> rfl
  | arr raw items =>
    have hk' : parseIndex name.data = none := hk
    simp [getPath, Json.member, hk']
  | null => simp [getPath, Json.member]
  | bool b => simp [getPath, Json.member]
  | num t => simp [getPath, Json.member]
  | str s => simp [getPath, Json.member]

theorem get_error_code (body : Json) :
    body.Get "error.code" = (body.member "error").bind fun e => e.member "code" := by
  have hp : splitPath "error.code".toList = ["error".toList, "code".toList] := by decide
  unfold Json.Get
  rw [hp, getPath_name body "error" _ (by decide)]
  cases body.member "error" with
  | none => rfl
  | some e =>
    simp only [Option.bind]
    rw [getPath_name e "code" _ (by decide)]
    cases e.member "code" <;> simp [getPath_nil]

theorem get_text (value : Json) : value.Get "text" = value.member "text" := by
  have hp : splitPath "text".toList = ["text".toList] := by decide
  unfold Json.Get
  rw [hp, getPath_name value "text" _ (by decide)]
  cases value.member "text" <;> simp [getPath_nil]

theorem get_first_text (body result first : Json) (raw : String) (items : List Json)
    (field : String) (hfield : parseIndex field.toList = none)
    (hr : body.member "result" = some result)
    (ht : result.member "texts" = some (Json.arr raw (first :: items))) :
    getPath body ["result".toList, "texts".toList, "0".toList, field.toList] =
      first.member field := by
  rw [getPath_name body "result" _ (by decide), hr]
  simp only [Option.bind]
  rw [getPath_name result "texts" _ (by decide), ht]
  have h0 : parseIndex "0".toList = some 0 := by decide
  simp only [Option.bind, getPath, h0, List.get?]
  rw [getPath_name first field _ hfield]
  cases first.member field <;> simp [getPath_nil]

theorem bindJSON_none : BindJSON newWriter none = newWriter := rfl

theorem newWriter_JSON (code : Nat) (body : Body) (hpos : code > 0)
    (hbody : bodyAllowedForStatus code = true) :
    newWriter.JSON code body = { status := code, written := true, replies := [⟨code, body⟩] } := by
  by_cases h200 : code = 200
  · subst h200
    simp [Writer.JSON, Writer.WriteHeader, Writer.WriteHeaderNow, newWriter, hbody]
  · have hne : ¬ (200 = code) := fun h => h200 h.symm
    simp [Writer.JSON, Writer.WriteHeader, Writer.WriteHeaderNow, newWriter, hbody, hpos, hne]

theorem JSON_replies (w : Writer) (code : Nat) (body : Body)
    (hbody : bodyAllowedForStatus code = true) :
    (w.JSON code body).replies = w.replies ++ [⟨code, body⟩] := by
  unfold Writer.JSON Writer.WriteHeader Writer.WriteHeaderNow
  rw [hbody]
  simp only [if_true]
  split_ifs <;> rfl

theorem bindJSON_replies (bindErr : Option String) : (BindJSON newWriter bindErr).replies = [] := by
  cases bindErr <;> rfl

theorem rateLimitRequest_resp (env : Env) (lim : Limiter) (resp : Response)
    (h : (rateLimitRequest env lim).resp = some resp) : (rateLimitRequest env lim).err = none := by
  unfold rateLimitRequest at h ⊢
  dsimp only at h ⊢
  by_cases herr : (RoundTrip (lim.Wait env.clock).limiter (lim.Wait env.clock).done
      env.roundTrip).err.isSome = true
  · rw [if_pos herr] at h
    simp at h
  · rw [if_neg herr]
    simpa using herr

theorem rateLimitRequest_err (env : Env) (lim : Limiter) (err : String)
    (h : (rateLimitRequest env lim).err = some err) : (rateLimitRequest env lim).resp = none := by
  unfold rateLimitRequest at h ⊢
  dsimp only at h ⊢
  by_cases herr : (RoundTrip (lim.Wait env.clock).limiter (lim.Wait env.clock).done
      env.roundTrip).err.isSome = true
  · rw [if_pos herr]
  · rw [if_neg herr] at h
    rw [h] at herr
    simp at herr

theorem translate_nonempty (env : Env) (id : Int) (lim : Limiter) (inb : Inbound)
    (h : inb.reqj.TransText ≠ "") :
    translate env id lim inb =
      afterRequest (BindJSON newWriter inb.bindErr) (id + 1)
        ⟨buildPostData (id + 1) env.now
            (if inb.reqj.SourceLang = "" then env.detectLang inb.reqj.TransText
              else inb.reqj.SourceLang)
            (if inb.reqj.TargetLang = "" then "EN" else inb.reqj.TargetLang) inb.reqj.TransText,
          rewritePayload (id + 1)
            (buildPostData (id + 1) env.now
              (if inb.reqj.SourceLang = "" then env.detectLang inb.reqj.TransText
                else inb.reqj.SourceLang)
              (if inb.reqj.TargetLang = "" then "EN" else inb.reqj.TargetLang)
              inb.reqj.TransText)⟩
        (rateLimitRequest env lim) := by
  simp [translate, h]

/-- C3, as stated, fails: a POST with an empty body binds to the empty text
with an error, `c.BindJSON` has sent the status 400 before the handler writes
its 404 body, and the status of the response is 400. -/
theorem empty_body_status_400 :
    emptyBody.reqj.TransText = "" ∧
    (translate unreachableEnv 8300000000 limiter emptyBody).response.status = 400 ∧
    (translate unreachableEnv 8300000000 limiter emptyBody).response.status ≠ 404 ∧
    (translate unreachableEnv 8300000000 limiter emptyBody).replies =
      [⟨404, Body.message 404 "No Translate Text Found"⟩] := by
  refine ⟨rfl, ?_, ?_, ?_⟩
  · rfl
  · decide
  · rfl

/-- C3, amended: a request that binds without error and whose text is empty
gets the status 404 with the single body 404 "No Translate Text Found", makes
no upstream call, and leaves the id counter and the limiter as they were. -/
theorem empty_text_rejected (env : Env) (id : Int) (lim : Limiter)
    (sourceLang targetLang : String) :
    translate env id lim ⟨⟨"", sourceLang, targetLang⟩, none⟩ =
      { response :=
          { status := 404, written := true,
            replies := [⟨404, Body.message 404 "No Translate Text Found"⟩] },
        calls := [], id := id, limiter := lim, sentAt := none, fault := false } := by
  simp [translate, bindJSON_none, newWriter_JSON 404 _ (by decide) (by decide)]

/-- C5, as stated, fails: for the body `{"text":"Hello","source_lang":5}` the
binding fails after the text is set, `c.BindJSON` sends the status 400, the
handler still calls the upstream, and the 406 body it writes on the error code
"-32600" follows a response whose status is 400. -/
theorem mistyped_request_status_not_406 :
    mistypedRequest.reqj.TransText ≠ "" ∧
    (translate invalidRequestEnv 8300000000 limiter mistypedRequest).response.status = 400 ∧
    (translate invalidRequestEnv 8300000000 limiter mistypedRequest).response.status ≠ 406 ∧
    (translate invalidRequestEnv 8300000000 limiter mistypedRequest).replies =
      [⟨406, Body.message 406 "Invalid targetLang"⟩] := by
  refine ⟨by decide, ?_, ?_, ?_⟩
  · rfl
  · decide
  · rfl

/-- C5, amended: for a request that binds without error and has a text, when
the upstream answer carries the error code "-32600", the response has the
status 406 and the single body 406 "Invalid targetLang", whatever the upstream
status is. -/
theorem invalid_target_lang (env : Env) (id : Int) (lim : Limiter) (inb : Inbound)
    (resp : Response)
    (htext : inb.reqj.TransText ≠ "") (hbind : inb.bindErr = none)
    (hresp : (rateLimitRequest env lim).resp = some resp)
    (hcode : resultString ((resp.Body.member "error").bind fun e => e.member "code")
      = "-32600") :
    (translate env id lim inb).response =
      { status := 406, written := true,
        replies := [⟨406, Body.message 406 "Invalid targetLang"⟩] } ∧
    (translate env id lim inb).fault = false := by
  have herr := rateLimitRequest_resp env lim resp hresp
  rw [translate_nonempty env id lim inb htext, hbind, bindJSON_none]
  simp [afterRequest, hresp, herr, get_error_code, hcode,
    newWriter_JSON 406 _ (by decide) (by decide)]

/-- C7: when `rateLimitRequest` returns an error, the response it returns is
nil; the handler writes 429 "rate limit exceeded", goes on, and ends in a nil
dereference. -/
theorem transport_error_faults (env : Env) (id : Int) (lim : Limiter) (inb : Inbound)
    (err : String)
    (htext : inb.reqj.TransText ≠ "") (hreq : (rateLimitRequest env lim).err = some err) :
    (rateLimitRequest env lim).resp = none ∧
    (translate env id lim inb).replies = [⟨429, Body.message 429 "rate limit exceeded"⟩] ∧
    (translate env id lim inb).fault = true := by
  have hresp := rateLimitRequest_err env lim err hreq
  refine ⟨hresp, ?_, ?_⟩
  · rw [translate_nonempty env id lim inb htext]
    simp [afterRequest, hresp, hreq, Outcome.replies,
      JSON_replies _ 429 _ (by decide), bindJSON_replies]
  · rw [translate_nonempty env id lim inb htext]
    simp [afterRequest, hresp]

/-- C4, as stated, fails: for the body `{"text":"Hello","source_lang":5}` the
binding fails after the text is set, `c.BindJSON` sends the status 400, and the
translation the handler writes follows a response whose status is 400. -/
theorem mistyped_request_status_not_200 :
    mistypedRequest.reqj.TransText ≠ "" ∧
    (translate bonjourEnv 8300000000 limiter mistypedRequest).response.status = 400 ∧
    (translate bonjourEnv 8300000000 limiter mistypedRequest).response.status ≠ 200 ∧
    (translate bonjourEnv 8300000000 limiter mistypedRequest).replies =
      [⟨200, Body.translation 200 8300000001 "Bonjour" ["Salut"]⟩] := by
  refine ⟨by decide, ?_, ?_, ?_⟩
  · rfl
  · decide
  · rfl

/-- C4, amended: for a request that binds without error and has a text, an
upstream answer whose status is not 429 and whose error code is not "-32600"
gets the status 200 and a single body; when `result.texts` is a list with a
first element, `data` is the `text` of that element, and `alternatives` is
empty when the element has no `alternatives`, and the `text` of each
alternative in upstream order when `alternatives` is a list. -/
theorem translation_returned (env : Env) (id : Int) (lim : Limiter) (inb : Inbound)
    (resp : Response)
    (htext : inb.reqj.TransText ≠ "") (hbind : inb.bindErr = none)
    (hresp : (rateLimitRequest env lim).resp = some resp)
    (hstatus : resp.StatusCode ≠ 429)
    (hcode : resultString ((resp.Body.member "error").bind fun e => e.member "code")
      ≠ "-32600") :
    ∃ data alternatives,
      (translate env id lim inb).response =
        { status := 200, written := true,
          replies := [⟨200, Body.translation 200 (id + 1) data alternatives⟩] } ∧
      (translate env id lim inb).fault = false ∧
      ∀ (result first : Json) (raw : String) (items : List Json),
        resp.Body.member "result" = some result →
        result.member "texts" = some (Json.arr raw (first :: items)) →
        data = resultString (first.member "text") ∧
        (first.member "alternatives" = none → alternatives = []) ∧
        ∀ (raw' : String) (alts : List Json),
          first.member "alternatives" = some (Json.arr raw' alts) →
          alternatives = alts.map fun a => resultString (a.member "text") := by
  have herr := rateLimitRequest_resp env lim resp hresp
  refine ⟨resultString (resp.Body.Get "result.texts.0.text"),
    (forEachValues (resp.Body.Get "result.texts.0.alternatives")).map
      (fun value => resultString (value.Get "text")), ?_, ?_, ?_⟩
  · rw [translate_nonempty env id lim inb htext, hbind, bindJSON_none]
    simp [afterRequest, hresp, herr, get_error_code, hcode, hstatus,
      newWriter_JSON 200 _ (by decide) (by decide)]
  · rw [translate_nonempty env id lim inb htext]
    simp [afterRequest, hresp, herr, get_error_code, hcode, hstatus]
  · intro result first raw items hr ht
    have hp1 : splitPath "result.texts.0.text".toList =
        ["result".toList, "texts".toList, "0".toList, "text".toList] := by decide
    have hp2 : splitPath "result.texts.0.alternatives".toList =
        ["result".toList, "texts".toList, "0".toList, "alternatives".toList] := by decide
    have h1 : resp.Body.Get "result.texts.0.text" = first.member "text" := by
      unfold Json.Get
      rw [hp1]
      exact get_first_text _ _ _ _ _ "text" (by decide) hr ht
    have h2 : resp.Body.Get "result.texts.0.alternatives" = first.member "alternatives" := by
      unfold Json.Get
      rw [hp2]
      exact get_first_text _ _ _ _ _ "alternatives" (by decide) hr ht
    rw [h1, h2]
    refine ⟨rfl, ?_, ?_⟩
    · intro hnone
      rw [hnone]
      rfl
    · intro raw' alts hsome
      rw [hsome]
      simp [forEachValues, get_text]

theorem afterRequest_fields (w : Writer) (id : Int) (call : Call) (done : Exchange) :
    (afterRequest w id call done).id = id ∧ (afterRequest w id call done).calls = [call] ∧
    (afterRequest w id call done).limiter = done.limiter ∧
    (afterRequest w id call done).sentAt = done.sentAt := by
  unfold afterRequest
  cases done.resp with
  | none => simp
  | some r => dsimp only; split_ifs <;> simp

theorem afterRequest_reply_id (w : Writer) (hw : w.replies = []) (id : Int) (call : Call)
    (done : Exchange) (status code : Nat) (i : Int) (data : String) (alts : List String)
    (h : (⟨status, Body.translation code i data alts⟩ : Reply) ∈
      (afterRequest w id call done).replies) : i = id := by
  have j406 := fun (v : Writer) (b : Body) => JSON_replies v 406 b (by decide)
  have j429 := fun (v : Writer) (b : Body) => JSON_replies v 429 b (by decide)
  have j200 := fun (v : Writer) (b : Body) => JSON_replies v 200 b (by decide)
  unfold afterRequest Outcome.replies at h
  cases hresp : done.resp with
  | none =>
    rw [hresp] at h
    cases herr : done.err.isSome <;> simp [herr, j429, hw] at h
  | some r =>
    rw [hresp] at h
    dsimp only at h
    by_cases hcode : resultString (r.Body.Get "error.code") = "-32600"
    · cases herr : done.err.isSome <;> simp [hcode, herr, j429, j406, hw] at h
    · by_cases hstatus : r.StatusCode = 429
      · cases herr : done.err.isSome <;> simp [hcode, hstatus, herr, j429, hw] at h
      · cases herr : done.err.isSome <;> simp [hcode, hstatus, herr, j429, j200, hw] at h
        all_goals exact h.2.2.1

theorem buildPostData_ID (id now : Int) (src tgt text : String) :
    (buildPostData id now src tgt text).ID = id := rfl

theorem translate_id (env : Env) (id : Int) (lim : Limiter) (inb : Inbound) :
    (translate env id lim inb).id = if inb.reqj.TransText = "" then id else id + 1 := by
  by_cases h : inb.reqj.TransText = ""
  · simp [translate, h]
  · rw [translate_nonempty env id lim inb h, (afterRequest_fields _ _ _ _).1, if_neg h]

theorem translate_sent (env : Env) (id : Int) (lim : Limiter) (inb : Inbound) :
    (translate env id lim inb).calls.map (fun c => c.envelope.ID) =
      if inb.reqj.TransText = "" then [] else [id + 1] := by
  by_cases h : inb.reqj.TransText = ""
  · simp [translate, h]
  · rw [translate_nonempty env id lim inb h, (afterRequest_fields _ _ _ _).2.1, if_neg h]
    rfl

theorem translate_reply_id (env : Env) (id : Int) (lim : Limiter) (inb : Inbound)
    (status code : Nat) (i : Int) (data : String) (alts : List String)
    (h : (⟨status, Body.translation code i data alts⟩ : Reply) ∈
      (translate env id lim inb).replies) : i = id + 1 := by
  by_cases ht : inb.reqj.TransText = ""
  · have h404 := JSON_replies (BindJSON newWriter inb.bindErr) 404
      (Body.message 404 "No Translate Text Found") (by decide)
    simp [translate, ht, Outcome.replies, h404, bindJSON_replies] at h
  · rw [translate_nonempty env id lim inb ht] at h
    exact afterRequest_reply_id _ (bindJSON_replies _) _ _ _ _ _ _ _ _ h

theorem countTexts_cons (q : Env × Inbound) (reqs : List (Env × Inbound)) :
    countTexts (q :: reqs) = countTexts reqs + if q.2.reqj.TransText = "" then 0 else 1 := by
  unfold countTexts
  rw [List.countP_cons]
  by_cases h : q.2.reqj.TransText = "" <;> simp [h]

theorem serve_get (reqs : List (Env × Inbound)) (id : Int) (lim : Limiter) (j : Nat)
    (env : Env) (inb : Inbound) (hj : reqs.get? j = some (env, inb)) :
    ∃ lim', (serve id lim reqs).get? j =
      some (translate env (id + countTexts (reqs.take j)) lim' inb) := by
  induction reqs generalizing id lim j with
  | nil => simp at hj
  | cons q reqs ih =>
    obtain ⟨env0, inb0⟩ := q
    cases j with
    | zero =>
      simp only [List.get?, Option.some.injEq, Prod.mk.injEq] at hj
      obtain ⟨rfl, rfl⟩ := hj
      exact ⟨lim, by simp [serve, countTexts]⟩
    | succ j =>
      simp only [List.get?] at hj
      obtain ⟨lim', hlim'⟩ := ih (translate env0 id lim inb0).id
        (translate env0 id lim inb0).limiter j hj
      refine ⟨lim', ?_⟩
      simp only [serve, List.get?, List.take, countTexts_cons]
      rw [hlim', translate_id]
      congr 2
      by_cases h : inb0.reqj.TransText = ""
      · simp [h]
      · simp only [h, if_false]
        push_cast
        ring

theorem sentIds_serve (reqs : List (Env × Inbound)) (id : Int) (lim : Limiter) :
    sentIds (serve id lim reqs) =
      (List.range (countTexts reqs)).map fun k => id + ((k : Nat) + 1 : Int) := by
  induction reqs generalizing id lim with
  | nil => simp [serve, sentIds, countTexts]
  | cons q reqs ih =>
    obtain ⟨env, inb⟩ := q
    have hs : sentIds (serve id lim ((env, inb) :: reqs)) =
        (translate env id lim inb).calls.map (fun c => c.envelope.ID) ++
          sentIds (serve (translate env id lim inb).id (translate env id lim inb).limiter reqs) := by
      simp [serve, sentIds]
    rw [hs, ih, translate_sent, translate_id, countTexts_cons]
    by_cases h : inb.reqj.TransText = ""
    · simp [h]
    · simp only [h, if_false]
      rw [List.range_succ_eq_map, List.map_cons, List.map_map]
      simp only [List.singleton_append, Nat.cast_zero, zero_add, List.cons.injEq, true_and]
      apply List.map_congr_left
      intro k _
      simp only [Function.comp, Nat.cast_succ]
      ring

theorem pairwise_lt_range_map (id : Int) (n : Nat) :
    ((List.range n).map fun k => id + ((k : Nat) + 1 : Int)).Pairwise (· < ·) := by
  rw [List.pairwise_map]
  refine (List.pairwise_lt_range n).imp ?_
  intro a b hab
  have : (a : Int) < b := by exact_mod_cast hab
  linarith

theorem translate_calls_payload (env : Env) (id : Int) (lim : Limiter) (inb : Inbound) :
    ∀ call ∈ (translate env id lim inb).calls,
      call.payload = rewritePayload call.envelope.ID call.envelope ∧
      ∃ now src tgt text, call.envelope = buildPostData call.envelope.ID now src tgt text := by
  intro call hcall
  by_cases h : inb.reqj.TransText = ""
  · simp [translate, h] at hcall
  · rw [translate_nonempty env id lim inb h, (afterRequest_fields _ _ _ _).2.1] at hcall
    simp only [List.mem_singleton] at hcall
    subst hcall
    exact ⟨rfl, _, _, _, _, rfl⟩

/-- C2: whatever the id, the clock, the text and the language codes are, the
rewritten encoding of the envelope never contains `"method":"` with no space;
in particular no upstream call of the handler carries it. -/
theorem payload_never_contains_unspaced_method :
    (∀ (id now : Int) (src tgt text : String),
      ¬ "\"method\":\"".toList <:+: rewritePayload id (buildPostData id now src tgt text)) ∧
    (∀ (env : Env) (id : Int) (lim : Limiter) (inb : Inbound),
      ∀ call ∈ (translate env id lim inb).calls,
        ¬ "\"method\":\"".toList <:+: call.payload) := by
  refine ⟨fun id now src tgt text =>
    method_absent_of_scanHits _ (scanHits_rewritePayload id now src tgt text), ?_⟩
  intro env id lim inb call hcall
  obtain ⟨hpayload, now, src, tgt, text, henv⟩ :=
    translate_calls_payload env id lim inb call hcall
  rw [hpayload, henv]
  exact method_absent_of_scanHits _ (scanHits_rewritePayload _ now src tgt text)

/-- C6: with the counter seeded by `getRandomNumber`, the request at position
`j`, when its text is not empty, sends the id `seed + k` where `k` counts the
requests with non-empty text up to and including it, and any 200 reply of that
request reports the same id; the ids sent upstream are `seed + 1`, `seed + 2`,
... in order, hence strictly increasing. -/
theorem ids_strictly_increasing (r : Int) (lim : Limiter) (reqs : List (Env × Inbound)) :
    (∀ (j : Nat) (env : Env) (inb : Inbound),
      reqs.get? j = some (env, inb) → inb.reqj.TransText ≠ "" →
      ∃ out, (serve (getRandomNumber r) lim reqs).get? j = some out ∧
        out.calls.map (fun c => c.envelope.ID) =
          [getRandomNumber r + countTexts (reqs.take (j + 1))] ∧
        ∀ (status code : Nat) (i : Int) (data : String) (alts : List String),
          (⟨status, Body.translation code i data alts⟩ : Reply) ∈ out.replies →
          i = getRandomNumber r + countTexts (reqs.take (j + 1))) ∧
    sentIds (serve (getRandomNumber r) lim reqs) =
      (List.range (countTexts reqs)).map (fun k => getRandomNumber r + ((k : Nat) + 1 : Int)) ∧
    (sentIds (serve (getRandomNumber r) lim reqs)).Pairwise (· < ·) := by
  refine ⟨?_, sentIds_serve reqs _ _, ?_⟩
  · intro j env inb hj htext
    have hcount : (countTexts (reqs.take (j + 1)) : Int) = countTexts (reqs.take j) + 1 := by
      rw [List.take_succ, ← List.get?_eq_getElem?, hj]
      simp [countTexts, List.countP_append, htext]
    obtain ⟨lim', hlim'⟩ := serve_get reqs (getRandomNumber r) lim j env inb hj
    refine ⟨_, hlim', ?_, ?_⟩
    · rw [translate_sent, if_neg htext, hcount, add_assoc]
    · intro status code i data alts hmem
      rw [translate_reply_id _ _ _ _ _ _ _ _ _ hmem, hcount, add_assoc]
  · rw [sentIds_serve]
    exact pairwise_lt_range_map _ _

/-! ## The limiter -/

theorem limiter_eq : limiter = { limit := 5000000000, burst := 12, tokens := 60000000000, last := 0 } := by
  rfl

theorem advance_le (lim : Limiter) (t : Int) : lim.advance t ≤ lim.burst * lim.limit := by
  unfold Limiter.advance
  dsimp only
  split_ifs <;> omega

theorem Wait_of_burst (lim : Limiter) (now : Int) (hb : 1 ≤ lim.burst) :
    lim.Wait now =
      { limiter := { lim with last := now, tokens := lim.advance now - lim.limit },
        done := now + (if lim.advance now - lim.limit < 0 then -(lim.advance now - lim.limit) else 0),
        err := none } := by
  unfold Limiter.Wait
  rw [if_neg (by omega)]

/-- The limiter and the time after `rateLimitRequest` are those after two
`Wait`s, the second at the time the first returned. -/
theorem rateLimitRequest_waits (env : Env) (lim : Limiter) (hb : 1 ≤ lim.burst) :
    (rateLimitRequest env lim).limiter =
      ((lim.Wait env.clock).limiter.Wait (lim.Wait env.clock).done).limiter ∧
    (rateLimitRequest env lim).sentAt =
      some ((lim.Wait env.clock).limiter.Wait (lim.Wait env.clock).done).done := by
  have h1 := Wait_of_burst lim env.clock hb
  have hb1 : 1 ≤ (lim.Wait env.clock).limiter.burst := by rw [h1]; exact hb
  have h2 := Wait_of_burst (lim.Wait env.clock).limiter (lim.Wait env.clock).done hb1
  unfold rateLimitRequest RoundTrip
  dsimp only
  rw [h2]
  cases env.roundTrip <;> simp

theorem twoWaits_config (lim : Limiter) (clock : Int) (hb : 1 ≤ lim.burst) :
    ((lim.Wait clock).limiter.Wait (lim.Wait clock).done).limiter.limit = lim.limit ∧
    ((lim.Wait clock).limiter.Wait (lim.Wait clock).done).limiter.burst = lim.burst := by
  have h1 := Wait_of_burst lim clock hb
  have hb1 : 1 ≤ (lim.Wait clock).limiter.burst := by rw [h1]; exact hb
  rw [Wait_of_burst _ _ hb1, h1]
  exact ⟨rfl, rfl⟩

/-- With two tokens in the bucket the two waits return at once and take two
tokens. -/
theorem twoWaits_free (lim : Limiter) (clock : Int) (hb : 1 ≤ lim.burst) (hl : 0 ≤ lim.limit)
    (h : 2 * lim.limit ≤ lim.advance clock) :
    ((lim.Wait clock).limiter.Wait (lim.Wait clock).done).done = clock ∧
    ((lim.Wait clock).limiter.Wait (lim.Wait clock).done).limiter.tokens =
      lim.advance clock - 2 * lim.limit ∧
    ((lim.Wait clock).limiter.Wait (lim.Wait clock).done).limiter.last = clock := by
  have hcap := advance_le lim clock
  have h1 := Wait_of_burst lim clock hb
  have hb1 : 1 ≤ (lim.Wait clock).limiter.burst := by rw [h1]; exact hb
  rw [Wait_of_burst _ _ hb1, h1]
  generalize lim.advance clock = a at h hcap
  simp only [Limiter.advance]
  generalize lim.burst * lim.limit = cap at hcap
  refine ⟨?_, ?_, ?_⟩ <;> split_ifs <;> omega

/-- With less than two tokens in the bucket the second wait returns late. -/
theorem twoWaits_late (lim : Limiter) (clock : Int) (hb : 1 ≤ lim.burst)
    (h : lim.advance clock < 2 * lim.limit) :
    clock < ((lim.Wait clock).limiter.Wait (lim.Wait clock).done).done := by
  have hcap := advance_le lim clock
  have h1 := Wait_of_burst lim clock hb
  have hb1 : 1 ≤ (lim.Wait clock).limiter.burst := by rw [h1]; exact hb
  rw [Wait_of_burst _ _ hb1, h1]
  generalize lim.advance clock = a at h hcap
  simp only [Limiter.advance]
  generalize lim.burst * lim.limit = cap at hcap
  split_ifs <;> omega

/-- With an empty bucket the two waits take two intervals and leave the bucket
empty at the time they return. -/
theorem twoWaits_empty (lim : Limiter) (clock : Int) (hb : 1 ≤ lim.burst) (hl : 0 ≤ lim.limit)
    (h : lim.advance clock = 0) :
    ((lim.Wait clock).limiter.Wait (lim.Wait clock).done).done = clock + 2 * lim.limit ∧
    ((lim.Wait clock).limiter.Wait (lim.Wait clock).done).limiter.advance
      (clock + 2 * lim.limit) = 0 := by
  have hcap0 : 0 ≤ lim.burst * lim.limit := Int.mul_nonneg (by omega) hl
  have h1 := Wait_of_burst lim clock hb
  have hb1 : 1 ≤ (lim.Wait clock).limiter.burst := by rw [h1]; exact hb
  rw [Wait_of_burst _ _ hb1, h1]
  rw [h]
  simp only [Limiter.advance]
  generalize lim.burst * lim.limit = cap at hcap0
  refine ⟨?_, ?_⟩ <;> split_ifs <;> omega

theorem Wait_bound (lim : Limiter) (now D : Int) (hb : 1 ≤ lim.burst)
    (hlast : lim.last ≤ now)
    (hinv : lim.tokens - lim.last ≤ lim.burst * lim.limit - D) :
    D + lim.limit - lim.burst * lim.limit ≤ (lim.Wait now).done ∧
    now ≤ (lim.Wait now).done ∧
    (lim.Wait now).limiter.last = now ∧
    (lim.Wait now).limiter.tokens - now ≤ lim.burst * lim.limit - (D + lim.limit) ∧
    (lim.Wait now).limiter.limit = lim.limit ∧
    (lim.Wait now).limiter.burst = lim.burst := by
  rw [Wait_of_burst lim now hb]
  simp only [Limiter.advance]
  generalize lim.burst * lim.limit = cap at hinv
  refine ⟨?_, ?_, ?_, ?_, ?_, ?_⟩ <;> first | trivial | (split_ifs <;> omega)

/-- After `D` nanoseconds of tokens were taken since the bucket was full at
time 0, two more waits return no earlier than `D + 2 * limit - burst * limit`. -/
theorem twoWaits_bound (lim : Limiter) (clock D : Int) (hb : 1 ≤ lim.burst)
    (hlast : lim.last ≤ clock)
    (hinv : lim.tokens - lim.last ≤ lim.burst * lim.limit - D) :
    D + 2 * lim.limit - lim.burst * lim.limit ≤
      ((lim.Wait clock).limiter.Wait (lim.Wait clock).done).done ∧
    ((lim.Wait clock).limiter.Wait (lim.Wait clock).done).limiter.last ≤
      ((lim.Wait clock).limiter.Wait (lim.Wait clock).done).done ∧
    ((lim.Wait clock).limiter.Wait (lim.Wait clock).done).limiter.tokens -
        ((lim.Wait clock).limiter.Wait (lim.Wait clock).done).limiter.last ≤
      lim.burst * lim.limit - (D + 2 * lim.limit) := by
  obtain ⟨_, h12, h13, h14, h15, h16⟩ := Wait_bound lim clock D hb hlast hinv
  have hb1 : 1 ≤ (lim.Wait clock).limiter.burst := by rw [h16]; exact hb
  have hlast1 : (lim.Wait clock).limiter.last ≤ (lim.Wait clock).done := by rw [h13]; exact h12
  have hinv1 : (lim.Wait clock).limiter.tokens - (lim.Wait clock).limiter.last ≤
      (lim.Wait clock).limiter.burst * (lim.Wait clock).limiter.limit - (D + lim.limit) := by
    rw [h13, h15, h16]; exact h14
  obtain ⟨h21, h22, h23, h24, _, _⟩ :=
    Wait_bound (lim.Wait clock).limiter (lim.Wait clock).done (D + lim.limit) hb1 hlast1 hinv1
  rw [h15, h16] at h21 h24
  refine ⟨by omega, by omega, ?_⟩
  rw [h23]
  omega

theorem translate_timing (env : Env) (id : Int) (lim : Limiter) (inb : Inbound)
    (h : inb.reqj.TransText ≠ "") (hb : 1 ≤ lim.burst) :
    (translate env id lim inb).limiter =
      ((lim.Wait env.clock).limiter.Wait (lim.Wait env.clock).done).limiter ∧
    (translate env id lim inb).sentAt =
      some ((lim.Wait env.clock).limiter.Wait (lim.Wait env.clock).done).done := by
  rw [translate_nonempty env id lim inb h, (afterRequest_fields _ _ _ _).2.2.1,
    (afterRequest_fields _ _ _ _).2.2.2]
  exact rateLimitRequest_waits env lim hb

theorem translate_no_call (env : Env) (id : Int) (lim : Limiter) (inb : Inbound)
    (h : inb.reqj.TransText = "") :
    (translate env id lim inb).limiter = lim ∧ (translate env id lim inb).sentAt = none := by
  simp [translate, h]

theorem advance_at_last (lim : Limiter) (t : Int) (hlast : lim.last = t)
    (hcap : lim.tokens ≤ lim.burst * lim.limit) : lim.advance t = lim.tokens := by
  unfold Limiter.advance
  dsimp only
  rw [hlast]
  split_ifs <;> omega

theorem backToBack_sentAt (reqs : List (Env × Inbound)) :
    ∀ (t id : Int) (lim : Limiter) (m : Nat), 1 ≤ lim.burst → 0 ≤ lim.limit →
      lim.advance t = (m : Int) * (2 * lim.limit) → backToBack t id lim reqs = true →
      ∀ (j : Nat) (out : Outcome), (serve id lim reqs).get? j = some out →
        out.sentAt = some (t + ((j + 1 - m : Nat) : Int) * (2 * lim.limit)) := by
  induction reqs with
  | nil =>
    intro t id lim m _ _ _ _ j out hj
    simp [serve] at hj
  | cons q rest ih =>
    intro t id lim m hb hl ha hbb j out hj
    obtain ⟨env, inb⟩ := q
    simp only [backToBack, Bool.and_eq_true, decide_eq_true_eq] at hbb
    obtain ⟨⟨hclock, htext⟩, hrest⟩ := hbb
    obtain ⟨hlim0, hsent0⟩ := translate_timing env id lim inb htext hb
    obtain ⟨hlimit, hburst⟩ := twoWaits_config lim env.clock hb
    rw [hclock] at hlim0 hsent0 hlimit hburst
    cases m with
    | zero =>
      have ha0 : lim.advance t = 0 := by simpa using ha
      obtain ⟨hdone, hadv⟩ := twoWaits_empty lim t hb hl ha0
      cases j with
      | zero =>
        simp only [serve, List.get?, Option.some.injEq] at hj
        subst hj
        rw [hsent0, hdone]
        simp
      | succ j =>
        simp only [serve, List.get?] at hj
        rw [hsent0] at hrest
        simp only [Option.getD_some] at hrest
        rw [hlim0] at hrest hj
        rw [hdone] at hrest
        have key := ih (t + 2 * lim.limit) _ _ 0 (by rw [hburst]; exact hb)
          (by rw [hlimit]; exact hl) (by rw [hadv]; simp) hrest j out hj
        rw [key, hlimit]
        congr 1
        push_cast
        ring
    | succ k =>
      have hk : 0 ≤ (k : Int) * (2 * lim.limit) :=
        Int.mul_nonneg (Int.ofNat_nonneg k) (by omega)
      have ha' : lim.advance t = (k : Int) * (2 * lim.limit) + 2 * lim.limit := by
        rw [ha]; push_cast; ring
      have h2 : 2 * lim.limit ≤ lim.advance t := by omega
      obtain ⟨hdone, htok, hlast⟩ := twoWaits_free lim t hb hl h2
      have hcap := advance_le lim t
      cases j with
      | zero =>
        simp only [serve, List.get?, Option.some.injEq] at hj
        subst hj
        rw [hsent0, hdone]
        simp
      | succ j =>
        simp only [serve, List.get?] at hj
        rw [hsent0] at hrest
        simp only [Option.getD_some] at hrest
        rw [hlim0] at hrest hj
        rw [hdone] at hrest
        have hadv : ((lim.Wait t).limiter.Wait (lim.Wait t).done).limiter.advance t =
            (k : Int) * (2 * lim.limit) := by
          rw [advance_at_last _ t hlast (by rw [htok, hburst, hlimit]; omega), htok]
          omega
        have key := ih t _ _ k (by rw [hburst]; exact hb) (by rw [hlimit]; exact hl)
          (by rw [hadv, hlimit]) hrest j out hj
        rw [key, hlimit]
        congr 3
        omega

theorem countTexts_take_succ (q : Env × Inbound) (rest : List (Env × Inbound)) (j : Nat) :
    countTexts ((q :: rest).take (j + 1)) =
      countTexts (rest.take j) + if q.2.reqj.TransText = "" then 0 else 1 := by
  rw [List.take_succ_cons, countTexts_cons]

theorem inOrder_bound (reqs : List (Env × Inbound)) :
    ∀ (t id : Int) (lim : Limiter) (D : Int), 1 ≤ lim.burst → lim.last ≤ t →
      lim.tokens - lim.last ≤ lim.burst * lim.limit - D → inOrder t id lim reqs = true →
      ∀ (j : Nat) (out : Outcome) (s : Int), (serve id lim reqs).get? j = some out →
        out.sentAt = some s →
        D + 2 * ((countTexts (reqs.take (j + 1)) : Int) * lim.limit) - lim.burst * lim.limit
          ≤ s := by
  induction reqs with
  | nil =>
    intro t id lim D _ _ _ _ j out s hj
    simp [serve] at hj
  | cons q rest ih =>
    intro t id lim D hb hlast hinv hin j out s hj hs
    obtain ⟨env, inb⟩ := q
    simp only [inOrder, Bool.and_eq_true, decide_eq_true_eq] at hin
    obtain ⟨hclock, hrest⟩ := hin
    by_cases htext : inb.reqj.TransText = ""
    · obtain ⟨hlim0, hsent0⟩ := translate_no_call env id lim inb htext
      cases j with
      | zero =>
        simp only [serve, List.get?, Option.some.injEq] at hj
        subst hj
        rw [hsent0] at hs
        simp at hs
      | succ j =>
        simp only [serve, List.get?] at hj
        rw [hsent0] at hrest
        simp only [Option.getD_none] at hrest
        rw [hlim0] at hrest hj
        have key := ih env.clock _ lim D hb (by omega) hinv hrest j out s hj hs
        rw [countTexts_take_succ]
        simpa [htext] using key
    · obtain ⟨hlim0, hsent0⟩ := translate_timing env id lim inb htext hb
      obtain ⟨hlimit, hburst⟩ := twoWaits_config lim env.clock hb
      obtain ⟨hb1, hb2, hb3⟩ := twoWaits_bound lim env.clock D hb (by omega) hinv
      cases j with
      | zero =>
        simp only [serve, List.get?, Option.some.injEq] at hj
        subst hj
        rw [hsent0] at hs
        simp only [Option.some.injEq] at hs
        subst hs
        rw [countTexts_take_succ]
        simp only [List.take_zero, htext, if_false]
        have : countTexts ([] : List (Env × Inbound)) = 0 := rfl
        rw [this]
        push_cast
        omega
      | succ j =>
        simp only [serve, List.get?] at hj
        rw [hsent0] at hrest
        simp only [Option.getD_some] at hrest
        rw [hlim0] at hrest hj
        have key := ih _ _ _ (D + 2 * lim.limit) (by rw [hburst]; exact hb) hb2
          (by rw [hburst, hlimit]; exact hb3) hrest j out s hj hs
        rw [hburst, hlimit] at key
        rw [countTexts_take_succ]
        simp only [htext, if_false]
        have hring : ((countTexts (List.take (j + 1) rest) + 1 : Nat) : Int) * lim.limit =
            (countTexts (List.take (j + 1) rest) : Int) * lim.limit + lim.limit := by
          push_cast; ring
        rw [hring]
        omega

theorem limiter_advance (t : Int) : limiter.advance t = ((6 : Nat) : Int) * (2 * limiter.limit) := by
  rw [limiter_eq]
  simp only [Limiter.advance]
  split_ifs <;> omega

/-- C10: the shared limiter gives one token per 5 seconds with a burst of 12
and starts full.  A call through `rateLimitRequest` leaves the limiter as two
`Wait`s leave it, the second at the time the first returned: with two tokens in
the bucket the call goes to the transport at once and two tokens are gone, with
less it goes later.  For requests that come back to back from a full bucket
the first six go out at once and each later one 10 seconds after the one
before.  Whenever the clock does not run backwards, the `n`-th call goes out
no earlier than `(2n - 12)` times 5 seconds after the start, that is at most
`6 + T / 10s` calls in a time `T`: six a minute, not twelve. -/
theorem two_waits_per_call :
    (limiter.limit = 5 * Second ∧ limiter.burst = 12 ∧ limiter.tokens = 12 * limiter.limit) ∧
    (∀ (env : Env) (lim : Limiter), 1 ≤ lim.burst → 0 ≤ lim.limit →
      (rateLimitRequest env lim).limiter =
        ((lim.Wait env.clock).limiter.Wait (lim.Wait env.clock).done).limiter ∧
      (2 * lim.limit ≤ lim.advance env.clock →
        (rateLimitRequest env lim).sentAt = some env.clock ∧
        (rateLimitRequest env lim).limiter.tokens = lim.advance env.clock - 2 * lim.limit) ∧
      (lim.advance env.clock < 2 * lim.limit →
        ∃ s, (rateLimitRequest env lim).sentAt = some s ∧ env.clock < s)) ∧
    (∀ (t id : Int) (reqs : List (Env × Inbound)), backToBack t id limiter reqs = true →
      ∀ (j : Nat) (out : Outcome), (serve id limiter reqs).get? j = some out →
        out.sentAt = some (t + ((j + 1 - 6 : Nat) : Int) * (10 * Second))) ∧
    (∀ (t id : Int) (reqs : List (Env × Inbound)), 0 ≤ t → inOrder t id limiter reqs = true →
      ∀ (j : Nat) (out : Outcome) (s : Int), (serve id limiter reqs).get? j = some out →
        out.sentAt = some s →
        (2 * (countTexts (reqs.take (j + 1)) : Int) - 12) * (5 * Second) ≤ s) := by
  refine ⟨⟨rfl, rfl, rfl⟩, ?_, ?_, ?_⟩
  · intro env lim hb hl
    obtain ⟨hlim, hsent⟩ := rateLimitRequest_waits env lim hb
    refine ⟨hlim, ?_, ?_⟩
    · intro h2
      obtain ⟨hdone, htok, _⟩ := twoWaits_free lim env.clock hb hl h2
      rw [hsent, hlim, hdone, htok]
      exact ⟨rfl, rfl⟩
    · intro h2
      exact ⟨_, hsent, twoWaits_late lim env.clock hb h2⟩
  · intro t id reqs hbb j out hj
    have key := backToBack_sentAt reqs t id limiter 6 (by decide) (by decide)
      (limiter_advance t) hbb j out hj
    rw [key]
    rfl
  · intro t id reqs ht hin j out s hj hs
    have key := inOrder_bound reqs t id limiter 0 (by decide) ht (by decide) hin j out s hj hs
    have hlimit : limiter.limit = 5000000000 := rfl
    have hburst : limiter.burst = 12 := rfl
    have hsecond : Second = 1000000000 := rfl
    rw [hlimit, hburst] at key
    rw [hsecond]
    omega

/-! ## The claims at the sample inputs -/

theorem translation_returned_witness :
    (translate bonjourEnv 8300000000 limiter helloRequest).response =
      { status := 200, written := true,
        replies := [⟨200, Body.translation 200 8300000001 "Bonjour" ["Salut"]⟩] } := by
  obtain ⟨data, alternatives, hresponse, _, hshape⟩ :=
    translation_returned bonjourEnv 8300000000 limiter helloRequest
      { StatusCode := 200, Body := bonjourBody } (by decide) rfl rfl (by decide) (by decide)
  obtain ⟨hdata, _, halts⟩ := hshape _ _ _ _ rfl rfl
  rw [hresponse, hdata, halts _ _ rfl]
  rfl

theorem invalid_target_lang_witness :
    (translate invalidRequestEnv 8300000000 limiter helloRequest).response =
      { status := 406, written := true,
        replies := [⟨406, Body.message 406 "Invalid targetLang"⟩] } ∧
    (translate invalidRequestEnv 8300000000 limiter helloRequest).fault = false :=
  invalid_target_lang invalidRequestEnv 8300000000 limiter helloRequest
    { StatusCode := 429, Body := invalidRequestBody } (by decide) rfl rfl (by decide)

theorem transport_error_faults_witness :
    (rateLimitRequest unreachableEnv limiter).resp = none ∧
    (translate unreachableEnv 8300000000 limiter helloRequest).replies =
      [⟨429, Body.message 429 "rate limit exceeded"⟩] ∧
    (translate unreachableEnv 8300000000 limiter helloRequest).fault = true :=
  transport_error_faults unreachableEnv 8300000000 limiter helloRequest "dial tcp: i/o timeout"
    (by decide) rfl

theorem ids_strictly_increasing_witness :
    sentIds (serve (getRandomNumber 5) limiter sampleRequests) = [8300005001, 8300005002] ∧
    (sentIds (serve (getRandomNumber 5) limiter sampleRequests)).Pairwise (· < ·) :=
  ⟨(ids_strictly_increasing 5 limiter sampleRequests).2.1.trans (by decide),
   (ids_strictly_increasing 5 limiter sampleRequests).2.2⟩

theorem two_waits_per_call_witness :
    (rateLimitRequest bonjourEnv limiter).sentAt = some 0 ∧
    (rateLimitRequest bonjourEnv limiter).limiter.tokens = 50000000000 ∧
    backToBack 0 8300000000 limiter burstRequests = true ∧
    inOrder 0 8300000000 limiter burstRequests = true ∧
    ((serve 8300000000 limiter burstRequests).get? 5).bind Outcome.sentAt = some 0 ∧
    ((serve 8300000000 limiter burstRequests).get? 6).bind Outcome.sentAt = some 10000000000 ∧
    ((serve 8300000000 limiter burstRequests).get? 7).bind Outcome.sentAt = some 20000000000 ∧
    (2 * (countTexts (burstRequests.take (7 + 1)) : Int) - 12) * (5 * Second) ≤ 20000000000 := by
  have hbb : backToBack 0 8300000000 limiter burstRequests = true := by decide
  have hin : inOrder 0 8300000000 limiter burstRequests = true := by decide
  obtain ⟨out5, h5⟩ : ∃ out, (serve 8300000000 limiter burstRequests).get? 5 = some out :=
    ⟨_, rfl⟩
  obtain ⟨out6, h6⟩ : ∃ out, (serve 8300000000 limiter burstRequests).get? 6 = some out :=
    ⟨_, rfl⟩
  obtain ⟨out7, h7⟩ : ∃ out, (serve 8300000000 limiter burstRequests).get? 7 = some out :=
    ⟨_, rfl⟩
  have kfree := (two_waits_per_call.2.1 bonjourEnv limiter (by decide) (by decide)).2.1
    (by decide)
  have k5 := two_waits_per_call.2.2.1 0 8300000000 burstRequests hbb 5 out5 h5
  have k6 := two_waits_per_call.2.2.1 0 8300000000 burstRequests hbb 6 out6 h6
  have k7 := two_waits_per_call.2.2.1 0 8300000000 burstRequests hbb 7 out7 h7
  have kbound := two_waits_per_call.2.2.2 0 8300000000 burstRequests (by decide) hin 7 out7
    20000000000 h7 k7
  refine ⟨kfree.1, kfree.2.trans (by decide), hbb, hin, ?_, ?_, ?_, kbound⟩
  · rw [h5, Option.bind, k5]; rfl
  · rw [h6, Option.bind, k6]; rfl
  · rw [h7, Option.bind, k7]; rfl

/-- The bytes sent for a text that itself holds `"method":"`: the quotes of
the text are escaped and the method field gets its space. -/
theorem payload_sample :
    rewritePayload 8300000001
        (buildPostData 8300000001 1700000000000 "EN" "DE" "say \"method\":\" twice") =
      "\x7b\"jsonrpc\":\"2.0\",\"method\": \"LMT_handle_texts\",\"id\":8300000001,\"params\":\x7b\"texts\":[\x7b\"text\":\"say \\\"method\\\":\\\" twice\",\"requestAlternatives\":3\x7d],\"splitting\":\"newlines\",\"lang\":\x7b\"source_lang_user_selected\":\"EN\",\"target_lang\":\"DE\"\x7d,\"timestamp\":1700000000002,\"commonJobParams\":\x7b\"wasSpoken\":false,\"transcribe_as\":\"\"\x7d\x7d\x7d".toList := by
  decide

end DeepLX
